import Mathlib

/-!
Verification development for the nanoclaw agent orchestrator and channel layer.

Shallow embedding of:
- the framing protocol and streaming parser of `runContainerAgent`
  (src/channels/whatsapp.ts, agent-runner section),
- the timeout / kill timer logic of `runContainerAgent`,
- the legacy (batch) output parsing of `runContainerAgent`,
- the secrets handling and run-log writes of `runContainerAgent`,
- the outgoing queue (`sendMessage` / `flushOutgoingQueue`) of `WhatsAppChannel`,
- the identity resolution cache (`translateJid`) of `WhatsAppChannel`,
- the inbound-message gating of `WhatsAppChannel.connectInternal` and
  `TelegramChannel.registerHandlers`.

JS strings are modelled as `List Char`.  `JSON.parse` is an abstract parameter
`jparse : Str → Option ContainerOutput` (`none` models a thrown parse error);
the scanner of marker frames is independent of it, exactly as in the source.
Configuration constants that live in config.js (CONTAINER_TIMEOUT, IDLE_TIMEOUT,
CONTAINER_MAX_OUTPUT_SIZE, ASSISTANT_NAME, ASSISTANT_HAS_OWN_NUMBER,
TRIGGER_PATTERN) are parameters of the corresponding definitions.
-/

set_option maxRecDepth 10000

namespace NanoClaw

abbrev Str := List Char

/-- Whitespace test used by the model of JS `String.prototype.trim`. -/
def isWsChar (c : Char) : Bool :=
  c = ' ' || c = '\t' || c = '\n' || c = '\r'

/-- Model of JS `s.trim()`: strip whitespace from both ends. -/
def jsTrim (s : Str) : Str :=
  ((s.dropWhile isWsChar).reverse.dropWhile isWsChar).reverse

/-- Model of JS `s.split('\n')`.  Like JS `split`, never returns `[]`. -/
def splitNl : Str → List Str
  | [] => [[]]
  | c :: rest =>
    if c = '\n' then [] :: splitNl rest
    else
      match splitNl rest with
      | [] => [[c]]
      | l :: ls => (c :: l) :: ls

/-- Does `s` start with `pat`?  Model of JS `startsWith` / used by `indexOf`. -/
def strStarts : Str → Str → Bool
  | [], _ => true
  | _ :: _, [] => false
  | a :: ps, b :: ss => a == b && strStarts ps ss

/-- Does `s` end with `pat`?  Model of JS `endsWith`. -/
def strEnds (pat s : Str) : Bool :=
  strStarts pat.reverse s.reverse

/-- Model of JS `s.indexOf(pat)`: position of the first occurrence
(`none` models `-1`). -/
def indexOf (pat : Str) : Str → Option Nat
  | [] => if pat.isEmpty then some 0 else none
  | b :: rest =>
    if strStarts pat (b :: rest) then some 0
    else (indexOf pat rest).map (· + 1)

/-- Model of JS `s.slice(-n)`: the last `n` characters. -/
def takeLast (n : Nat) (s : Str) : Str :=
  s.drop (s.length - n)

/-- Last line rule of the legacy parser: `stdout.trim().split('\n')` last entry. -/
def lastLine (s : Str) : Str :=
  (splitNl (jsTrim s)).getLastD []

def natStr (n : Nat) : Str := (toString n).toList

def intStr (i : Int) : Str := (toString i).toList

/-- Characters before the first occurrence of `c`: JS `s.split(c)[0]`. -/
def takeBeforeChar (c : Char) (s : Str) : Str :=
  s.takeWhile (· ≠ c)

/-- JS truthy-or for strings: `a || b` where `a : string | undefined`. -/
def jsOrStr (a : Option Str) (b : Str) : Str :=
  match a with
  | some s => if s.isEmpty then b else s
  | none => b

/-- JS truthiness of an optional string. -/
def optTruthy (a : Option Str) : Bool :=
  match a with
  | some s => !s.isEmpty
  | none => false

/-! ## Framing protocol (sentinel markers of the agent-runner output) -/

/-- `OUTPUT_START_MARKER` from the source. -/
def SM : Str := "---NANOCLAW_OUTPUT_START---".toList

/-- `OUTPUT_END_MARKER` from the source. -/
def EM : Str := "---NANOCLAW_OUTPUT_END---".toList

/--
One iteration of the streaming scan loop: find the first start marker, then the
first end marker searched from the start marker's index (as
`parseBuffer.indexOf(OUTPUT_END_MARKER, startIdx)` does), cut the trimmed
payload `slice(startIdx + |SM|, endIdx)` and continue after the end marker.
`Nat` subtraction models the empty result JS `slice` gives when the range is
reversed.
-/
def nextFrame (buf : Str) : Option (Str × Str) :=
  match indexOf SM buf with
  | none => none
  | some s =>
    match indexOf EM (buf.drop s) with
    | none => none
    | some j =>
      let e := s + j
      some (jsTrim ((buf.drop (s + SM.length)).take (e - (s + SM.length))),
            buf.drop (e + EM.length))

/-- Fuel-indexed repetition of `nextFrame`; returns (leftover buffer, payloads). -/
def scanFrames : Nat → Str → Str × List Str
  | 0, buf => (buf, [])
  | fuel + 1, buf =>
    match nextFrame buf with
    | none => (buf, [])
    | some (pl, rest) =>
      let r := scanFrames fuel rest
      (r.1, pl :: r.2)

/-- Complete scan of a buffer (the fuel `buf.length` always suffices since each
frame consumes at least one end marker). -/
def scanAll (buf : Str) : Str × List Str :=
  scanFrames buf.length buf

/-- All framed payloads of a byte stream, in order. -/
def frames (s : Str) : List Str := (scanAll s).2

/-- Leftover buffer after scanning all complete frames. -/
def residual (s : Str) : Str := (scanAll s).1

/-! ## Worker output events -/

inductive OStatus where
  | success
  | error
deriving DecidableEq

inductive StreamKind where
  | thinking
  | text
  | tool
deriving DecidableEq

/-- `ContainerOutput` from the source. -/
structure ContainerOutput where
  status : OStatus
  result : Option Str
  newSessionId : Option Str
  error : Option Str
  isPartial : Option Bool
  streamType : Option StreamKind
deriving DecidableEq

/-! ## Process orchestrator state machine (`runContainerAgent`) -/

/-- Configuration visible to one invocation: `CONTAINER_MAX_OUTPUT_SIZE`, the
effective `configTimeout` (`group.containerConfig?.timeout || CONTAINER_TIMEOUT`)
and whether a streaming callback `onOutput` was supplied. -/
structure AgentCfg where
  maxOutput : Nat
  configTimeout : Nat
  hasCallback : Bool
deriving DecidableEq

/-- Events observed by the invocation before the `close` event: stdout data
chunks, stderr data chunks, and the firing of the kill timer
(`killOnTimeout`, which sets `timedOut`). -/
inductive Ev where
  | stdoutData (chunk : Str)
  | stderrData (chunk : Str)
  | timer
deriving DecidableEq

/-- Mutable state of one `runContainerAgent` invocation. -/
structure AgentState where
  stdout : Str
  stderr : Str
  stdoutTruncated : Bool
  stderrTruncated : Bool
  parseBuffer : Str
  newSessionId : Option Str
  delivered : List ContainerOutput
  hadStreamingOutput : Bool
  timedOut : Bool
deriving DecidableEq

def initState : AgentState :=
  { stdout := [], stderr := [], stdoutTruncated := false, stderrTruncated := false,
    parseBuffer := [], newSessionId := none, delivered := [],
    hadStreamingOutput := false, timedOut := false }

/-- Size-capped accumulation of one data chunk (the truncation logic applied
identically to stdout and stderr in the source). -/
def appendCapped (maxOutput : Nat) (cur : Str) (truncated : Bool) (chunk : Str) :
    Str × Bool :=
  if truncated then (cur, true)
  else
    let remaining := maxOutput - cur.length
    if chunk.length > remaining then (cur ++ chunk.take remaining, true)
    else (cur ++ chunk, false)

/-- `if (parsed.newSessionId) newSessionId = parsed.newSessionId` (JS truthiness:
an empty string does not update). -/
def sessUpdate (acc : Option Str) (p : ContainerOutput) : Option Str :=
  match p.newSessionId with
  | some s => if s.isEmpty then acc else some s
  | none => acc

/--
One event step of the invocation.  A stdout chunk is appended (captured up to
the ceiling) and — only when a streaming callback exists — appended to
`parseBuffer`, which is then scanned for all complete frames; each payload that
`JSON.parse`s successfully updates `newSessionId`, sets `hadStreamingOutput`,
and is chained onto the delivery queue (`outputChain`), modelled by the
`delivered` list.  Note the parse buffer receives the full chunk even when the
captured stdout is truncated, as in the source.
-/
def step (jparse : Str → Option ContainerOutput) (cfg : AgentCfg)
    (st : AgentState) (e : Ev) : AgentState :=
  match e with
  | .stdoutData c =>
    let cap := appendCapped cfg.maxOutput st.stdout st.stdoutTruncated c
    let st1 := { st with stdout := cap.1, stdoutTruncated := cap.2 }
    if cfg.hasCallback then
      let sc := scanAll (st1.parseBuffer ++ c)
      let parsedHere := sc.2.filterMap jparse
      { st1 with
        parseBuffer := sc.1,
        delivered := st1.delivered ++ parsedHere,
        hadStreamingOutput := st1.hadStreamingOutput || !parsedHere.isEmpty,
        newSessionId := parsedHere.foldl sessUpdate st1.newSessionId }
    else st1
  | .stderrData c =>
    let cap := appendCapped cfg.maxOutput st.stderr st.stderrTruncated c
    { st with stderr := cap.1, stderrTruncated := cap.2 }
  | .timer => { st with timedOut := true }

def runFrom (jparse : Str → Option ContainerOutput) (cfg : AgentCfg)
    (st : AgentState) (evs : List Ev) : AgentState :=
  evs.foldl (step jparse cfg) st

/-- State of the invocation after processing `evs` from the initial state. -/
def runEvents (jparse : Str → Option ContainerOutput) (cfg : AgentCfg)
    (evs : List Ev) : AgentState :=
  runFrom jparse cfg initState evs

def outChunks (evs : List Ev) : List Str :=
  evs.filterMap fun e =>
    match e with
    | .stdoutData c => some c
    | _ => none

def errChunks (evs : List Ev) : List Str :=
  evs.filterMap fun e =>
    match e with
    | .stderrData c => some c
    | _ => none

/-- Closed form of `runEvents` (established by `run_shape` below). -/
def shapeState (jparse : Str → Option ContainerOutput) (cfg : AgentCfg)
    (evs : List Ev) : AgentState :=
  let so := (outChunks evs).flatten
  let se := (errChunks evs).flatten
  let ps := (frames so).filterMap jparse
  { stdout := so.take cfg.maxOutput,
    stdoutTruncated := decide (cfg.maxOutput < so.length),
    stderr := se.take cfg.maxOutput,
    stderrTruncated := decide (cfg.maxOutput < se.length),
    parseBuffer := if cfg.hasCallback then residual so else [],
    delivered := if cfg.hasCallback then ps else [],
    hadStreamingOutput := cfg.hasCallback && !ps.isEmpty,
    timedOut := decide (Ev.timer ∈ evs),
    newSessionId := if cfg.hasCallback then ps.foldl sessUpdate none else none }

/-! ## Terminal result (`close` handler) -/

/-- Terminal resolution: the resolved `ContainerOutput` plus whether the
resolution is chained behind the delivery queue (`outputChain.then(resolve)`)
or issued immediately. -/
structure TerminalR where
  out : ContainerOutput
  awaitsChain : Bool
deriving DecidableEq

def mkSuccessOut (sess : Option Str) : ContainerOutput :=
  { status := .success, result := none, newSessionId := sess,
    error := none, isPartial := none, streamType := none }

def timeoutErrorOut (configTimeout : Nat) : ContainerOutput :=
  { status := .error, result := none, newSessionId := none,
    error := some ("Agent timed out after ".toList ++ natStr configTimeout
                    ++ "ms".toList),
    isPartial := none, streamType := none }

/-- Exit code of the child: `none` models JS `null` (killed by a signal). -/
def exitCodeStr (code : Option Int) : Str :=
  match code with
  | some n => intStr n
  | none => "null".toList

def exitErrorOut (code : Option Int) (stderr : Str) : ContainerOutput :=
  { status := .error, result := none, newSessionId := none,
    error := some ("Agent exited with code ".toList ++ exitCodeStr code
                    ++ ": ".toList ++ takeLast 200 stderr),
    isPartial := none, streamType := none }

/-- Stand-in for the dynamic `Failed to parse agent output: <err>` message (the
exception text belongs to the abstracted `JSON.parse`). -/
def parseFailOut : ContainerOutput :=
  { status := .error, result := none, newSessionId := none,
    error := some ("Failed to parse agent output".toList),
    isPartial := none, streamType := none }

/--
The payload string chosen by the legacy (batch) branch: the slice between the
first start-marker occurrence and the first end-marker occurrence when the
latter is strictly later, otherwise the last line of the trimmed output.
-/
def legacyJsonLine (stdout : Str) : Str :=
  match indexOf SM stdout, indexOf EM stdout with
  | some s, some e =>
    if s < e then jsTrim ((stdout.drop (s + SM.length)).take (e - (s + SM.length)))
    else lastLine stdout
  | some _, none => lastLine stdout
  | none, _ => lastLine stdout

def legacyResult (jparse : Str → Option ContainerOutput) (stdout : Str) :
    ContainerOutput :=
  match jparse (legacyJsonLine stdout) with
  | some o => o
  | none => parseFailOut

/--
The `close` handler: timeout soft-success / timeout error / exit error /
streaming success / legacy batch parse.  `awaitsChain` records whether `resolve`
is wrapped in `outputChain.then` (deliveries complete before resolution) or not.
-/
def finish (jparse : Str → Option ContainerOutput) (cfg : AgentCfg)
    (st : AgentState) (code : Option Int) : TerminalR :=
  if st.timedOut then
    if st.hadStreamingOutput then
      { out := mkSuccessOut st.newSessionId, awaitsChain := true }
    else
      { out := timeoutErrorOut cfg.configTimeout, awaitsChain := false }
  else if code ≠ some 0 then
    { out := exitErrorOut code st.stderr, awaitsChain := false }
  else if cfg.hasCallback then
    { out := mkSuccessOut st.newSessionId, awaitsChain := true }
  else
    { out := legacyResult jparse st.stdout, awaitsChain := false }

/-- Whole invocation: process the event trace, then the `close` event. -/
def runAgent (jparse : Str → Option ContainerOutput) (cfg : AgentCfg)
    (evs : List Ev) (code : Option Int) : TerminalR :=
  finish jparse cfg (runEvents jparse cfg evs) code

/-! ## Kill timer (`setTimeout` / `clearTimeout` / `resetTimeout`) -/

/-- `group.containerConfig?.timeout || CONTAINER_TIMEOUT` (JS `||`: a zero or
absent per-group timeout falls back to the global one). -/
def effectiveTimeout (groupTimeout : Option Nat) (containerTimeout : Nat) : Nat :=
  match groupTimeout with
  | some t => if t = 0 then containerTimeout else t
  | none => containerTimeout

/-- `timeoutMs = Math.max(configTimeout, IDLE_TIMEOUT + 30_000)`. -/
def timeoutMsOf (configTimeout idleTimeout : Nat) : Nat :=
  max configTimeout (idleTimeout + 30000)

/--
Time at which `killOnTimeout` fires.  The single timer is armed at `armed` with
duration `tms` and re-armed at each time in `rs` (the times at which a streamed
event is parsed, ascending): a re-arm is effective only if it happens strictly
before the pending expiry.
-/
def killTime (tms : Nat) : List Nat → Nat → Nat
  | [], armed => armed + tms
  | r :: rs, armed =>
    if r < armed + tms then killTime tms rs r else armed + tms

/-- Each re-arm time happens strictly before the expiry pending at that moment. -/
def chainOK (tms : Nat) : Nat → List Nat → Bool
  | _, [] => true
  | armed, r :: rs => decide (r < armed + tms) && chainOK tms r rs

/-! ## Outbound delivery queue (`WhatsAppChannel`) -/

structure QItem where
  jid : Str
  text : Str
deriving DecidableEq

structure WAState where
  connected : Bool
  outgoingQueue : List QItem
  flushing : Bool
deriving DecidableEq

/-- Bot-name prefixing applied by `sendMessage` before queueing or sending. -/
def prefixedText (hasOwnNumber : Bool) (assistantName : Str) (jid text : Str) :
    Str :=
  if !hasOwnNumber && strEnds "@g.us".toList jid then
    assistantName ++ ": ".toList ++ text
  else text

/--
`sendMessage`: when disconnected, enqueue; when connected, attempt the
transport send (`sendOk` models whether `sock.sendMessage` resolves) and
enqueue on failure.  Returns the new state and the list of items handed to the
transport successfully.  No failure is ever surfaced to the caller (the
function is total).
-/
def sendMessageM (hasOwnNumber : Bool) (assistantName : Str) (st : WAState)
    (jid text : Str) (sendOk : Bool) : WAState × List QItem :=
  let p := prefixedText hasOwnNumber assistantName jid text
  if !st.connected then
    ({ st with outgoingQueue := st.outgoingQueue ++ [⟨jid, p⟩] }, [])
  else if sendOk then (st, [⟨jid, p⟩])
  else ({ st with outgoingQueue := st.outgoingQueue ++ [⟨jid, p⟩] }, [])

/--
The drain loop body: `shift` the head and send it.  `ok` models whether the
transport send for that item resolves; a rejection propagates out of the loop
(the shifted item is not re-queued), leaving the remaining items queued.
Returns (items sent, items left in the queue).
-/
def drainLoop (ok : QItem → Bool) : List QItem → List QItem × List QItem
  | [] => ([], [])
  | i :: rest =>
    if ok i then
      let r := drainLoop ok rest
      (i :: r.1, r.2)
    else ([], rest)

/-- `flushOutgoingQueue`: guarded by the `flushing` flag (mutual exclusion) and
by queue emptiness; the `finally` clears the flag even when a send rejects. -/
def flushOutgoingQueueM (st : WAState) (ok : QItem → Bool) :
    WAState × List QItem :=
  if st.flushing || st.outgoingQueue.isEmpty then (st, [])
  else
    let r := drainLoop ok st.outgoingQueue
    ({ st with outgoingQueue := r.2, flushing := false }, r.1)

/-! ## Identity resolution cache (`translateJid`) -/

/-- `jid.split('@')[0].split(':')[0]`. -/
def lidUserOf (jid : Str) : Str :=
  takeBeforeChar ':' (takeBeforeChar '@' jid)

def cacheLookup : List (Str × Str) → Str → Option Str
  | [], _ => none
  | (k, v) :: rest, key => if k = key then some v else cacheLookup rest key

/-- JS object property assignment `map[k] = v` (later lookups see `v`). -/
def cacheInsert (k v : Str) (m : List (Str × Str)) : List (Str × Str) :=
  (k, v) :: m

/-- `pn.split('@')[0].split(':')[0] + '@s.whatsapp.net'`. -/
def phoneJidOf (pn : Str) : Str :=
  takeBeforeChar ':' (takeBeforeChar '@' pn) ++ "@s.whatsapp.net".toList

/--
`translateJid`: non-`@lid` ids pass through untouched; otherwise the local map
is consulted first (JS truthiness: an empty cached string would be a miss — the
map only ever holds non-empty values); on a miss the authoritative resolver
(`signalRepository.lidMapping.getPNForLID`) is called, `none` modelling both a
null result and a thrown error; a truthy result is cached and returned, any
failure returns the opaque id unchanged.  The `Nat` counts resolver calls.
-/
def translateJidM (resolver : Str → Option Str) (cache : List (Str × Str))
    (jid : Str) : Str × List (Str × Str) × Nat :=
  if !strEnds "@lid".toList jid then (jid, cache, 0)
  else
    let lidUser := lidUserOf jid
    match cacheLookup cache lidUser with
    | some cached =>
      if cached.isEmpty then
        match resolver jid with
        | some pn =>
          if pn.isEmpty then (jid, cache, 1)
          else (phoneJidOf pn, cacheInsert lidUser (phoneJidOf pn) cache, 1)
        | none => (jid, cache, 1)
      else (cached, cache, 0)
    | none =>
      match resolver jid with
      | some pn =>
        if pn.isEmpty then (jid, cache, 1)
        else (phoneJidOf pn, cacheInsert lidUser (phoneJidOf pn) cache, 1)
      | none => (jid, cache, 1)

/-- Total number of resolver calls made by two successive resolutions of the
same opaque id (the second starting from the cache the first produced). -/
def translateTwice (resolver : Str → Option Str) (cache : List (Str × Str))
    (jid : Str) : Nat :=
  let r1 := translateJidM resolver cache jid
  let r2 := translateJidM resolver r1.2.1 jid
  r1.2.2 + r2.2.2

/-! ## Secrets handling and run-log writes (`runContainerAgent` effects) -/

/-- `ContainerInput` from the source. -/
structure CInput where
  prompt : Str
  sessionId : Option Str
  groupFolder : Str
  chatJid : Str
  isMain : Bool
  isScheduledTask : Option Bool
  secrets : Option (List (Str × Str))
deriving DecidableEq

/-- Content of the per-run log file.  A timed-out run writes the short TIMEOUT
log (no input, no streams); a normal close writes the run log whose input and
stream dumps are present only when erroring or verbose. -/
inductive LogRecord where
  | timeoutLog (hadStreamingOutput : Bool) (exitCode : Option Int)
  | runLog (stdoutTruncated stderrTruncated : Bool) (inputDump : Option CInput)
      (streamDump : Option (Str × Str)) (exitCode : Option Int)
deriving DecidableEq

/-- Observable side effects of one invocation from the point the secrets are
read (directory creation and settings writes happen before any secret exists). -/
inductive SpawnEffect where
  | stdinWrite (payload : CInput)
  | stdinEnd
  | logWrite (rec : LogRecord)
deriving DecidableEq

def logRecordOf (verbose : Bool) (input : CInput) (st : AgentState)
    (code : Option Int) : LogRecord :=
  if st.timedOut then .timeoutLog st.hadStreamingOutput code
  else
    .runLog st.stdoutTruncated st.stderrTruncated
      (if verbose || code ≠ some 0 then some input else none)
      (if verbose || code ≠ some 0 then some (st.stderr, st.stdout) else none)
      code

/-- The secrets a given effect would persist or transmit. -/
def logRecSecrets : LogRecord → Option (List (Str × Str))
  | .timeoutLog _ _ => none
  | .runLog _ _ dump _ _ => dump.bind fun i => i.secrets

/--
Ordered effect trace of one close-terminated invocation, transcribed from the
source: `input.secrets = readSecrets()`, stdin write of the serialized input,
stdin end, `delete input.secrets`, then (in the `close` handler) the run-log
file write serializing the now-scrubbed input.  The spawn-error path performs
no further writes and is omitted.
-/
def runAgentEffects (jparse : Str → Option ContainerOutput) (cfg : AgentCfg)
    (verbose : Bool) (input0 : CInput) (secrets : List (Str × Str))
    (evs : List Ev) (code : Option Int) : List SpawnEffect × TerminalR :=
  let inputW := { input0 with secrets := some secrets }
  let inputS := { inputW with secrets := none }
  let st := runEvents jparse cfg evs
  ([SpawnEffect.stdinWrite inputW, SpawnEffect.stdinEnd,
    SpawnEffect.logWrite (logRecordOf verbose inputS st code)],
   finish jparse cfg st code)

/-! ## Inbound message gating (WhatsApp + Telegram handlers) -/

/-- Normalized inbound message handed to `onMessage` (the `is_bot_message`
field is set by the WhatsApp channel and absent for Telegram). -/
structure InboundMsg where
  id : Str
  chat_jid : Str
  sender : Str
  sender_name : Str
  content : Str
  timestamp : Str
  is_from_me : Bool
  is_bot_message : Option Bool
deriving DecidableEq

/-- The two router-facing callbacks a channel can invoke for one update. -/
inductive Cb where
  | chatMetadata (jid : Str) (ts : Str) (chatName : Option Str)
  | message (jid : Str) (m : InboundMsg)
deriving DecidableEq

/-- One entry of the `messages.upsert` batch (`msg.message` presence is
`hasBody`; timestamp formatting is abstracted into the precomputed `tsIso`). -/
structure WAMsg where
  hasBody : Bool
  remoteJid : Option Str
  participant : Option Str
  msgId : Option Str
  fromMe : Bool
  pushName : Option Str
  tsIso : Str
  conversation : Option Str
  extendedText : Option Str
  hasImage : Bool
  imageCaption : Option Str
  hasVideo : Bool
  videoCaption : Option Str
  isVoice : Bool
deriving DecidableEq

/-- Content computation of the WhatsApp handler (captions, media placeholders,
voice transcription; `transcribe` is the transcription oracle, `.error`
modelling a thrown transcription error). -/
def waContent (msg : WAMsg) (transcribe : Except Unit (Option Str)) : Str :=
  let c0 := jsOrStr msg.conversation (jsOrStr msg.extendedText [])
  let c1 :=
    if c0.isEmpty && msg.hasImage then
      match msg.imageCaption with
      | some cap =>
        if cap.isEmpty then "[Image]".toList
        else "[Image: ".toList ++ cap ++ "]".toList
      | none => "[Image]".toList
    else if c0.isEmpty && msg.hasVideo then
      match msg.videoCaption with
      | some cap =>
        if cap.isEmpty then "[Video]".toList
        else "[Video: ".toList ++ cap ++ "]".toList
      | none => "[Video]".toList
    else if optTruthy msg.imageCaption && c0.isEmpty then
      msg.imageCaption.getD []
    else if optTruthy msg.videoCaption && c0.isEmpty then
      msg.videoCaption.getD []
    else c0
  if msg.isVoice then
    match transcribe with
    | .ok (some t) =>
      if t.isEmpty then "[Voice Message - transcription unavailable]".toList
      else "[Voice: ".toList ++ t ++ "]".toList
    | .ok none => "[Voice Message - transcription unavailable]".toList
    | .error _ => "[Voice Message - transcription failed]".toList
  else c1

/--
One message of the `messages.upsert` handler: skip bodyless / broadcast
messages, translate the JID, always emit chat metadata, and deliver the full
message only when the (translated) chat JID is registered at that moment.
The image-message caching and contact upserts are database effects, not router
callbacks, and are not modelled.
-/
def processWAMessage (hasOwnNumber : Bool) (assistantName : Str)
    (registered : Str → Bool) (resolver : Str → Option Str)
    (transcribe : Except Unit (Option Str)) (cache : List (Str × Str))
    (msg : WAMsg) : List (Str × Str) × List Cb :=
  if !msg.hasBody then (cache, [])
  else
    match msg.remoteJid with
    | none => (cache, [])
    | some raw =>
      if raw = "status@broadcast".toList then (cache, [])
      else
        let tr := translateJidM resolver cache raw
        let chatJid := tr.1
        let cache' := tr.2.1
        if registered chatJid then
          let content := waContent msg transcribe
          let sender := jsOrStr msg.participant (jsOrStr msg.remoteJid [])
          let senderName := jsOrStr msg.pushName (takeBeforeChar '@' sender)
          let isBot :=
            if hasOwnNumber then msg.fromMe
            else strStarts (assistantName ++ ":".toList) content
          (cache',
           [Cb.chatMetadata chatJid msg.tsIso none,
            Cb.message chatJid
              { id := msg.msgId.getD [], chat_jid := chatJid, sender := sender,
                sender_name := senderName, content := content,
                timestamp := msg.tsIso, is_from_me := msg.fromMe,
                is_bot_message := some isBot }])
        else (cache', [Cb.chatMetadata chatJid msg.tsIso none])

/-- `tg:<id>` chat identifier. -/
def tgJid (i : Int) : Str := "tg:".toList ++ intStr i

/-- ISO timestamp of a Telegram update (formatting abstracted). -/
def tgTs (date : Int) : Str := intStr date

/-- `isAllowedSender`: the chat is registered, or the sender's own private chat
is registered. -/
def tgAllowed (registered : Str → Bool) (chatId : Int) (fromId : Option Int) :
    Bool :=
  registered (tgJid chatId) ||
    (match fromId with
     | some f => registered (tgJid f)
     | none => false)

/-- One Telegram update as seen by `registerHandlers`.  `mediaMsg` covers the
photo/video/audio/document/sticker/location/contact handlers, whose placeholder
string is the argument `storeNonText` receives; `botMentioned` abstracts the
entity scan for `@bot_username`. -/
inductive TgUpdate where
  | textMsg (chatId : Int) (fromId : Option Int) (isPrivate : Bool)
      (title : Option Str) (body : Str) (firstName username : Option Str)
      (date : Int) (msgId : Int) (botMentioned : Bool)
  | mediaMsg (chatId : Int) (fromId : Option Int) (placeholder : Str)
      (caption : Option Str) (firstName username : Option Str)
      (date : Int) (msgId : Int)
  | voiceMsg (chatId : Int) (fromId : Option Int)
      (firstName username : Option Str) (date : Int) (msgId : Int)
      (transcript : Option Str)
  | commandMsg (chatId : Int) (fromId : Option Int) (cmd : Str)
deriving DecidableEq

def tgSenderName (fromId : Option Int) (firstName username : Option Str) : Str :=
  match fromId with
  | some f => jsOrStr firstName (jsOrStr username (intStr f))
  | none => jsOrStr firstName (jsOrStr username "Unknown".toList)

/--
The Telegram handlers: the middleware drops updates from non-allowed senders;
the text handler skips commands, always stores chat metadata, and delivers the
message only when the chat itself is registered; the non-text handlers
(`storeNonText`, voice) check registration before any callback; the command
handlers only reply and never reach the router (`triggerTest` models
`TRIGGER_PATTERN.test`).
-/
def handleTgUpdate (assistantName : Str) (triggerTest : Str → Bool)
    (registered : Str → Bool) (upd : TgUpdate) : List Cb :=
  match upd with
  | .textMsg chatId fromId isPrivate title body firstName username date msgId
      botMentioned =>
    if !tgAllowed registered chatId fromId then []
    else if strStarts "/".toList body then []
    else
      let chatJid := tgJid chatId
      let content :=
        if botMentioned && !triggerTest body then
          "@".toList ++ assistantName ++ " ".toList ++ body
        else body
      let senderName := tgSenderName fromId firstName username
      let sender := match fromId with | some f => intStr f | none => []
      let chatName := if isPrivate then senderName else jsOrStr title chatJid
      let metaCb := Cb.chatMetadata chatJid (tgTs date) (some chatName)
      if registered chatJid then
        [metaCb,
         Cb.message chatJid
           { id := intStr msgId, chat_jid := chatJid, sender := sender,
             sender_name := senderName, content := content,
             timestamp := tgTs date, is_from_me := false,
             is_bot_message := none }]
      else [metaCb]
  | .mediaMsg chatId fromId placeholder caption firstName username date msgId =>
    if !tgAllowed registered chatId fromId then []
    else
      let chatJid := tgJid chatId
      if !registered chatJid then []
      else
        let senderName := tgSenderName fromId firstName username
        let capPart :=
          match caption with
          | some c => if c.isEmpty then [] else " ".toList ++ c
          | none => []
        [Cb.chatMetadata chatJid (tgTs date) none,
         Cb.message chatJid
           { id := intStr msgId, chat_jid := chatJid,
             sender := (match fromId with | some f => intStr f | none => []),
             sender_name := senderName, content := placeholder ++ capPart,
             timestamp := tgTs date, is_from_me := false,
             is_bot_message := none }]
  | .voiceMsg chatId fromId firstName username date msgId transcript =>
    if !tgAllowed registered chatId fromId then []
    else
      let chatJid := tgJid chatId
      if !registered chatJid then []
      else
        let senderName := tgSenderName fromId firstName username
        let content :=
          match transcript with
          | some t =>
            if t.isEmpty then "[Voice message]".toList
            else "[Voice message] ".toList ++ t
          | none => "[Voice message]".toList
        [Cb.chatMetadata chatJid (tgTs date) none,
         Cb.message chatJid
           { id := intStr msgId, chat_jid := chatJid,
             sender := (match fromId with | some f => intStr f | none => []),
             sender_name := senderName, content := content,
             timestamp := tgTs date, is_from_me := false,
             is_bot_message := none }]
  | .commandMsg chatId fromId _ =>
    if !tgAllowed registered chatId fromId then [] else []

/-! ## Concrete fixtures used by witnesses and counterexamples -/

def outEv1 : ContainerOutput :=
  { status := .success, result := some "hello".toList,
    newSessionId := some "sess1".toList, error := none, isPartial := none,
    streamType := some .text }

def outEv2 : ContainerOutput :=
  { status := .success, result := some "world".toList, newSessionId := none,
    error := none, isPartial := none, streamType := none }

/-- Concrete instantiation of the abstract `JSON.parse`. -/
def jparse0 : Str → Option ContainerOutput := fun s =>
  if s = "EVT1".toList then some outEv1
  else if s = "EVT2".toList then some outEv2
  else none

/-- A `JSON.parse` oracle accepting everything. -/
def jparseK : Str → Option ContainerOutput := fun _ => some outEv2

def cfgS : AgentCfg :=
  { maxOutput := 100000, configTimeout := 200000, hasCallback := true }

def cfgB : AgentCfg :=
  { maxOutput := 100000, configTimeout := 200000, hasCallback := false }

def cfgT1 : AgentCfg := { maxOutput := 3, configTimeout := 555, hasCallback := false }

def cfgT2 : AgentCfg := { maxOutput := 100, configTimeout := 555, hasCallback := false }

def frameChunk1 : Str := SM ++ "EVT1".toList ++ EM

def frameChunk2 : Str := SM ++ "EVT2".toList ++ EM

/-- A stream holding two complete marker pairs. -/
def exPair : Str := SM ++ "AAA".toList ++ EM ++ SM ++ "BBB".toList ++ EM

def qA : QItem := { jid := "a@g.us".toList, text := "x".toList }

def qB : QItem := { jid := "b@g.us".toList, text := "y".toList }

def stAB : WAState := { connected := true, outgoingQueue := [qA, qB], flushing := false }

def inputFix : CInput :=
  { prompt := "p".toList, sessionId := none, groupFolder := "g".toList,
    chatJid := "c@g.us".toList, isMain := true, isScheduledTask := none,
    secrets := none }

def secretsFix : List (Str × Str) := [("ANTHROPIC_API_KEY".toList, "k".toList)]

def registeredWA : Str → Bool := fun j => decide (j = "r@g.us".toList)

def registeredTG : Str → Bool := fun j => decide (j = "tg:5".toList)

def waMsg0 : WAMsg :=
  { hasBody := true, remoteJid := some "r@g.us".toList,
    participant := some "u@s.whatsapp.net".toList, msgId := some "m1".toList,
    fromMe := false, pushName := some "U".toList, tsIso := "t0".toList,
    conversation := some "hello".toList, extendedText := none, hasImage := false,
    imageCaption := none, hasVideo := false, videoCaption := none,
    isVoice := false }

def tgUpd0 : TgUpdate :=
  .textMsg 5 (some 9) false (some "T".toList) "hi".toList (some "F".toList)
    none 0 1 false

def resolver0 : Str → Option Str := fun _ => some "12345@x".toList

/-- The inbound message `processWAMessage` produces for `waMsg0`. -/
def inMsgWA : InboundMsg :=
  { id := "m1".toList, chat_jid := "r@g.us".toList,
    sender := "u@s.whatsapp.net".toList, sender_name := "U".toList,
    content := "hello".toList, timestamp := "t0".toList, is_from_me := false,
    is_bot_message := some false }

/-- The inbound message `handleTgUpdate` produces for `tgUpd0`. -/
def inMsgTG : InboundMsg :=
  { id := "1".toList, chat_jid := "tg:5".toList, sender := "9".toList,
    sender_name := "F".toList, content := "hi".toList, timestamp := "0".toList,
    is_from_me := false, is_bot_message := none }

/-! ## Supporting lemmas: prefixes and `indexOf` -/

theorem strStarts_length_le (pat s : Str) (h : strStarts pat s = true) :
    pat.length ≤ s.length := by
  induction pat generalizing s with
  | nil => simp
  | cons a ps ih =>
    cases s with
    | nil => simp [strStarts] at h
    | cons b ss =>
      simp only [strStarts, Bool.and_eq_true] at h
      have := ih ss h.2
      simp only [List.length_cons]
      omega

theorem strStarts_append_of_le (pat s c : Str) (h : pat.length ≤ s.length) :
    strStarts pat (s ++ c) = strStarts pat s := by
  induction pat generalizing s with
  | nil => simp [strStarts]
  | cons a ps ih =>
    cases s with
    | nil => simp at h
    | cons b ss =>
      simp only [List.cons_append, strStarts, List.append_eq]
      rw [ih ss (by simpa using h)]

theorem strStarts_append_true (pat s c : Str) (h : strStarts pat s = true) :
    strStarts pat (s ++ c) = true := by
  rw [strStarts_append_of_le pat s c (strStarts_length_le pat s h)]
  exact h

theorem indexOf_nil_pat (s : Str) : indexOf [] s = some 0 := by
  cases s <;> simp [indexOf, strStarts]

theorem indexOf_bound (pat s : Str) (i : Nat) (h : indexOf pat s = some i) :
    i + pat.length ≤ s.length := by
  induction s generalizing i with
  | nil =>
    by_cases hp : pat.isEmpty
    · simp only [indexOf, hp, if_pos, Option.some.injEq] at h
      simp [List.isEmpty_iff.mp hp, ← h]
    · simp [indexOf, hp] at h
  | cons b ss ih =>
    by_cases hs : strStarts pat (b :: ss)
    · simp only [indexOf, hs, if_pos, Option.some.injEq] at h
      have := strStarts_length_le pat (b :: ss) hs
      omega
    · simp only [indexOf, hs, if_neg, Option.map_eq_some', Bool.false_eq_true,
        not_false_eq_true] at h
      obtain ⟨j, hj, rfl⟩ := h
      have := ih j hj
      simp only [List.length_cons]
      omega

theorem indexOf_append (pat s c : Str) (i : Nat) (h : indexOf pat s = some i) :
    indexOf pat (s ++ c) = some i := by
  induction s generalizing i with
  | nil =>
    by_cases hp : pat.isEmpty
    · have hpe : pat = [] := List.isEmpty_iff.mp hp
      simp only [indexOf, hp, if_pos, Option.some.injEq] at h
      rw [hpe, List.nil_append, indexOf_nil_pat, h]
    · simp [indexOf, hp] at h
  | cons b ss ih =>
    by_cases hs : strStarts pat (b :: ss)
    · simp only [indexOf, hs, if_pos, Option.some.injEq] at h
      have : strStarts pat ((b :: ss) ++ c) = true :=
        strStarts_append_true pat (b :: ss) c hs
      rw [List.cons_append] at this ⊢
      simp [indexOf, this, h]
    · simp only [indexOf, hs, if_neg, Option.map_eq_some', Bool.false_eq_true,
        not_false_eq_true] at h
      obtain ⟨j, hj, rfl⟩ := h
      have hb := indexOf_bound pat ss j hj
      have hs' : strStarts pat ((b :: ss) ++ c) = false := by
        rw [strStarts_append_of_le pat (b :: ss) c (by simp; omega)]
        simpa using hs
      rw [List.cons_append] at hs' ⊢
      simp [indexOf, hs', ih j hj]

theorem indexOf_starts (pat s : Str) (i : Nat) (h : indexOf pat s = some i) :
    strStarts pat (s.drop i) = true := by
  induction s generalizing i with
  | nil =>
    by_cases hp : pat.isEmpty
    · have hpe : pat = [] := List.isEmpty_iff.mp hp
      simp [hpe, strStarts]
    · simp [indexOf, hp] at h
  | cons b ss ih =>
    by_cases hs : strStarts pat (b :: ss)
    · simp only [indexOf, hs, if_pos, Option.some.injEq] at h
      rw [← h]
      simpa using hs
    · simp only [indexOf, hs, if_neg, Option.map_eq_some', Bool.false_eq_true,
        not_false_eq_true] at h
      obtain ⟨j, hj, rfl⟩ := h
      simpa using ih j hj

theorem indexOf_least (pat s : Str) (i : Nat) (h : indexOf pat s = some i)
    (k : Nat) (hk : k < i) : strStarts pat (s.drop k) = false := by
  induction s generalizing i k with
  | nil =>
    by_cases hp : pat.isEmpty
    · simp only [indexOf, hp, if_pos, Option.some.injEq] at h
      omega
    · simp [indexOf, hp] at h
  | cons b ss ih =>
    by_cases hs : strStarts pat (b :: ss)
    · simp only [indexOf, hs, if_pos, Option.some.injEq] at h
      omega
    · simp only [indexOf, hs, if_neg, Option.map_eq_some', Bool.false_eq_true,
        not_false_eq_true] at h
      obtain ⟨j, hj, rfl⟩ := h
      cases k with
      | zero => simpa using hs
      | succ k' => simpa using ih j hj k' (by omega)

theorem indexOf_intro (pat s : Str) (i : Nat)
    (h1 : strStarts pat (s.drop i) = true)
    (h2 : ∀ k, k < i → strStarts pat (s.drop k) = false) :
    indexOf pat s = some i := by
  induction s generalizing i with
  | nil =>
    have hi : i = 0 := by
      by_contra hne
      have hz := h2 0 (by omega)
      rw [List.drop_nil] at h1
      rw [List.drop_nil] at hz
      rw [h1] at hz
      exact Bool.noConfusion hz
    subst hi
    rw [List.drop_nil] at h1
    cases pat with
    | nil => exact indexOf_nil_pat []
    | cons a ps => simp [strStarts] at h1
  | cons b ss ih =>
    cases i with
    | zero =>
      rw [List.drop_zero] at h1
      simp [indexOf, h1]
    | succ j =>
      have h0 := h2 0 (by omega)
      rw [List.drop_zero] at h0
      have hrec : indexOf pat ss = some j := by
        apply ih j
        · simpa using h1
        · intro k hk
          simpa using h2 (k + 1) (by omega)
      simp [indexOf, h0, hrec]

/-! ## Supporting lemmas: frame scanning -/

theorem sm_ne_nil : SM ≠ [] := by decide

theorem em_ne_nil : EM ≠ [] := by decide

theorem nextFrame_nil : nextFrame [] = none := by decide

theorem nextFrame_some_bounds (buf pl rest : Str)
    (h : nextFrame buf = some (pl, rest)) :
    ∃ s j, indexOf SM buf = some s ∧ indexOf EM (buf.drop s) = some j ∧
      pl = jsTrim ((buf.drop (s + SM.length)).take (s + j - (s + SM.length))) ∧
      rest = buf.drop (s + j + EM.length) ∧
      s + SM.length ≤ buf.length ∧ s + j + EM.length ≤ buf.length := by
  unfold nextFrame at h
  cases hSM : indexOf SM buf with
  | none => simp [hSM] at h
  | some s =>
    simp only [hSM] at h
    cases hEM : indexOf EM (buf.drop s) with
    | none => simp [hEM] at h
    | some j =>
      simp only [hEM, Option.some.injEq, Prod.mk.injEq] at h
      have hbS := indexOf_bound SM buf s hSM
      have hbE := indexOf_bound EM (buf.drop s) j hEM
      rw [List.length_drop] at hbE
      refine ⟨s, j, rfl, hEM, h.1.symm, h.2.symm, by omega, ?_⟩
      have : (25 : Nat) ≤ EM.length := by decide
      have : EM.length = 25 := by decide
      omega

theorem nextFrame_rest_lt (buf pl rest : Str)
    (h : nextFrame buf = some (pl, rest)) : rest.length < buf.length := by
  obtain ⟨s, j, _, _, _, hrest, hb1, hb2⟩ := nextFrame_some_bounds buf pl rest h
  have hE : EM.length = 25 := by decide
  rw [hrest, List.length_drop]
  omega

theorem nextFrame_append (p c pl rest : Str)
    (h : nextFrame p = some (pl, rest)) :
    nextFrame (p ++ c) = some (pl, rest ++ c) := by
  obtain ⟨s, j, hSM, hEM, hpl, hrest, hb1, hb2⟩ := nextFrame_some_bounds p pl rest h
  have hSM' : indexOf SM (p ++ c) = some s := indexOf_append SM p c s hSM
  have hsle : s ≤ p.length := by
    have : (0 : Nat) < SM.length := by decide
    omega
  have hdrop : (p ++ c).drop s = p.drop s ++ c := List.drop_append_of_le_length hsle
  have hEM' : indexOf EM ((p ++ c).drop s) = some j := by
    rw [hdrop]; exact indexOf_append EM (p.drop s) c j hEM
  have hplq : jsTrim (((p ++ c).drop (s + SM.length)).take (s + j - (s + SM.length)))
      = pl := by
    rw [List.drop_append_of_le_length hb1]
    rw [List.take_append_of_le_length]
    · rw [hpl]
    · rw [List.length_drop]
      have hE : EM.length = 25 := by decide
      omega
  have hrestq : (p ++ c).drop (s + j + EM.length) = rest ++ c := by
    rw [List.drop_append_of_le_length hb2, hrest]
  simp only [nextFrame, hSM', hEM', Option.some.injEq, Prod.mk.injEq]
  exact ⟨hplq, hrestq⟩

theorem scanFrames_congr (f : Nat) :
    ∀ (g : Nat) (buf : Str), buf.length ≤ f → buf.length ≤ g →
      scanFrames f buf = scanFrames g buf := by
  induction f with
  | zero =>
    intro g buf hf _
    have : buf = [] := List.eq_nil_of_length_eq_zero (by omega)
    subst this
    cases g with
    | zero => rfl
    | succ g' => simp [scanFrames, nextFrame_nil]
  | succ f' ih =>
    intro g buf hf hg
    cases g with
    | zero =>
      have : buf = [] := List.eq_nil_of_length_eq_zero (by omega)
      subst this
      simp [scanFrames, nextFrame_nil]
    | succ g' =>
      cases hnf : nextFrame buf with
      | none => simp [scanFrames, hnf]
      | some pr =>
        obtain ⟨pl, rest⟩ := pr
        have hlt := nextFrame_rest_lt buf pl rest hnf
        simp only [scanFrames, hnf]
        rw [ih g' rest (by omega) (by omega)]

theorem scanFrames_fuel (f : Nat) (buf : Str) (h : buf.length ≤ f) :
    scanFrames f buf = scanAll buf :=
  scanFrames_congr f buf.length buf h le_rfl

theorem scanAll_none (buf : Str) (h : nextFrame buf = none) :
    scanAll buf = (buf, []) := by
  unfold scanAll
  cases hl : buf.length with
  | zero => rfl
  | succ k => simp [scanFrames, h]

theorem scanAll_cons (buf pl rest : Str) (h : nextFrame buf = some (pl, rest)) :
    scanAll buf = ((scanAll rest).1, pl :: (scanAll rest).2) := by
  have hlt := nextFrame_rest_lt buf pl rest h
  unfold scanAll
  cases hl : buf.length with
  | zero =>
    have : buf = [] := List.eq_nil_of_length_eq_zero hl
    rw [this, nextFrame_nil] at h
    exact absurd h (by simp)
  | succ k =>
    simp only [scanFrames, h]
    rw [scanFrames_congr k rest.length rest (by omega) le_rfl]

theorem scanAll_append (p c : Str) :
    scanAll (p ++ c) = ((scanAll ((scanAll p).1 ++ c)).1,
                        (scanAll p).2 ++ (scanAll ((scanAll p).1 ++ c)).2) := by
  generalize hn : p.length = n
  induction n using Nat.strong_induction_on generalizing p with
  | _ n ih =>
    cases hnf : nextFrame p with
    | none =>
      rw [scanAll_none p hnf]
      simp
    | some pr =>
      obtain ⟨pl, rest⟩ := pr
      have hlt := nextFrame_rest_lt p pl rest hnf
      have hpc := nextFrame_append p c pl rest hnf
      rw [scanAll_cons p pl rest hnf, scanAll_cons (p ++ c) (pl, rest ++ c).1
        (rest ++ c) hpc]
      have ihr := ih rest.length (by omega) rest rfl
      rw [ihr]
      simp

theorem frames_append (p c : Str) :
    frames (p ++ c) = frames p ++ frames (residual p ++ c) := by
  unfold frames residual
  rw [scanAll_append p c]

theorem residual_append (p c : Str) :
    residual (p ++ c) = residual (residual p ++ c) := by
  unfold residual
  rw [scanAll_append p c]

/-! ## Supporting lemmas: invocation state machine -/

theorem outChunks_append (a b : List Ev) :
    outChunks (a ++ b) = outChunks a ++ outChunks b :=
  List.filterMap_append ..

theorem errChunks_append (a b : List Ev) :
    errChunks (a ++ b) = errChunks a ++ errChunks b :=
  List.filterMap_append ..

theorem take_append_ge (n : Nat) (a b : Str) (h : a.length ≤ n) :
    (a ++ b).take n = a ++ b.take (n - a.length) := by
  rw [List.take_append_eq_append_take, List.take_of_length_le h]

theorem appendCapped_shape (maxOutput : Nat) (t c : Str) :
    appendCapped maxOutput (t.take maxOutput) (decide (maxOutput < t.length)) c
      = ((t ++ c).take maxOutput, decide (maxOutput < (t ++ c).length)) := by
  by_cases h : maxOutput < t.length
  · have hd : decide (maxOutput < t.length) = true := decide_eq_true h
    have hd2 : decide (maxOutput < (t ++ c).length) = true :=
      decide_eq_true (by rw [List.length_append]; omega)
    have h1 : (t ++ c).take maxOutput = t.take maxOutput :=
      List.take_append_of_le_length (by omega)
    rw [hd, hd2, h1]
    simp [appendCapped]
  · have hd : decide (maxOutput < t.length) = false := decide_eq_false h
    have ht : t.take maxOutput = t := List.take_of_length_le (by omega)
    rw [hd, ht]
    by_cases hc : c.length > maxOutput - t.length
    · have hd2 : decide (maxOutput < (t ++ c).length) = true :=
        decide_eq_true (by rw [List.length_append]; omega)
      have h1 : (t ++ c).take maxOutput = t ++ c.take (maxOutput - t.length) :=
        take_append_ge maxOutput t c (by omega)
      rw [hd2, h1]
      simp [appendCapped, hc]
    · have hd2 : decide (maxOutput < (t ++ c).length) = false :=
        decide_eq_false (by rw [List.length_append]; omega)
      have h1 : (t ++ c).take maxOutput = t ++ c :=
        List.take_of_length_le (by rw [List.length_append]; omega)
      rw [hd2, h1]
      simp [appendCapped, hc]

theorem isEmpty_append_not (a b : List ContainerOutput) :
    (!(a ++ b).isEmpty) = (!a.isEmpty || !b.isEmpty) := by
  cases a <;> simp

theorem step_shape (jparse : Str → Option ContainerOutput) (cfg : AgentCfg)
    (evs : List Ev) (e : Ev) :
    step jparse cfg (shapeState jparse cfg evs) e
      = shapeState jparse cfg (evs ++ [e]) := by
  have h3 : ∀ d : Str, (Ev.timer ∈ evs ++ [Ev.stdoutData d]) ↔ Ev.timer ∈ evs := by
    intro d; simp
  have h4 : ∀ d : Str, (Ev.timer ∈ evs ++ [Ev.stderrData d]) ↔ Ev.timer ∈ evs := by
    intro d; simp
  have h5 : (Ev.timer ∈ evs ++ [Ev.timer]) ↔ True := by simp
  cases e with
  | timer =>
    have h1 : outChunks [Ev.timer] = [] := rfl
    have h2 : errChunks [Ev.timer] = [] := rfl
    simp only [step, shapeState, outChunks_append, errChunks_append, h1, h2,
      List.append_nil, h5]
    simp
  | stderrData c =>
    have h1 : outChunks [Ev.stderrData c] = [] := rfl
    have h2 : errChunks [Ev.stderrData c] = [c] := rfl
    simp only [step, shapeState, outChunks_append, errChunks_append, h1, h2,
      List.append_nil, List.flatten_append, List.flatten_cons, List.flatten_nil,
      appendCapped_shape, h4]
  | stdoutData c =>
    have h1 : outChunks [Ev.stdoutData c] = [c] := rfl
    have h2 : errChunks [Ev.stdoutData c] = [] := rfl
    simp only [step, shapeState, outChunks_append, errChunks_append, h1, h2,
      List.append_nil, List.flatten_append, List.flatten_cons, List.flatten_nil,
      appendCapped_shape, h3]
    by_cases hcb : cfg.hasCallback
    · have hres : (scanAll (residual ((outChunks evs).flatten) ++ c)).1
          = residual ((outChunks evs).flatten ++ c) :=
        (residual_append ((outChunks evs).flatten) c).symm
      have hfr : frames ((outChunks evs).flatten ++ c)
          = frames ((outChunks evs).flatten)
            ++ (scanAll (residual ((outChunks evs).flatten) ++ c)).2 :=
        frames_append ((outChunks evs).flatten) c
      simp only [hcb, if_true, hres, hfr, List.filterMap_append,
        isEmpty_append_not, List.foldl_append, Bool.true_and]
    · simp only [hcb, Bool.false_eq_true, if_false, Bool.false_and]

theorem runFrom_shape (jparse : Str → Option ContainerOutput) (cfg : AgentCfg)
    (evs more : List Ev) :
    runFrom jparse cfg (shapeState jparse cfg evs) more
      = shapeState jparse cfg (evs ++ more) := by
  induction more generalizing evs with
  | nil => simp [runFrom]
  | cons e rest ih =>
    rw [runFrom, List.foldl_cons, step_shape]
    have h := ih (evs ++ [e])
    rw [runFrom] at h
    rw [h, List.append_assoc]
    simp

theorem shape_nil (jparse : Str → Option ContainerOutput) (cfg : AgentCfg) :
    shapeState jparse cfg [] = initState := by
  have h1 : outChunks [] = [] := rfl
  have h2 : errChunks [] = [] := rfl
  have h3 : frames ([] : Str) = [] := rfl
  have h4 : residual ([] : Str) = [] := rfl
  simp [shapeState, initState, h1, h2, h3, h4]

/-- Closed form of one invocation's state after any event trace. -/
theorem run_shape (jparse : Str → Option ContainerOutput) (cfg : AgentCfg)
    (evs : List Ev) :
    runEvents jparse cfg evs = shapeState jparse cfg evs := by
  rw [runEvents, ← shape_nil jparse cfg, runFrom_shape]
  simp

/-! ## Supporting lemmas: queue, cache, timer -/

theorem drainLoop_sent_split (ok : QItem → Bool) (q : List QItem) :
    ∃ r, (drainLoop ok q).1 ++ r = q := by
  induction q with
  | nil => exact ⟨[], rfl⟩
  | cons a rest ih =>
    by_cases ha : ok a
    · obtain ⟨r, hr⟩ := ih
      refine ⟨r, ?_⟩
      simp [drainLoop, ha, hr]
    · exact ⟨a :: rest, by simp [drainLoop, ha]⟩

theorem drainLoop_all (ok : QItem → Bool) (q : List QItem)
    (h : ∀ x ∈ q, ok x = true) : drainLoop ok q = (q, []) := by
  induction q with
  | nil => rfl
  | cons a rest ih =>
    have ha := h a (by simp)
    have hr := ih fun x hx => h x (by simp [hx])
    simp [drainLoop, ha, hr]

theorem drainLoop_split (ok : QItem → Bool) (pre post : List QItem) (i : QItem)
    (hpre : ∀ x ∈ pre, ok x = true) (hi : ok i = false) :
    drainLoop ok (pre ++ i :: post) = (pre, post) := by
  induction pre with
  | nil => simp [drainLoop, hi]
  | cons a rest ih =>
    have ha := hpre a (by simp)
    have hr := ih fun x hx => hpre x (by simp [hx])
    simp [drainLoop, ha, hr]

theorem cacheLookup_insert (k v : Str) (m : List (Str × Str)) :
    cacheLookup (cacheInsert k v m) k = some v := by
  simp [cacheInsert, cacheLookup]

theorem phoneJidOf_not_empty (pn : Str) : (phoneJidOf pn).isEmpty = false := by
  unfold phoneJidOf
  cases h : takeBeforeChar ':' (takeBeforeChar '@' pn) with
  | nil => decide
  | cons a l => simp

/-! ## Claim C2 -/

/--
Claim C2 (as stated, refuted): an absolute timer derived from configuration
kills the worker unconditionally once the absolute duration elapses,
independently of the resets performed on every streamed event.  In the code
there is only one timer, re-armed by `resetTimeout` on every parsed event, so
a single parsed event already pushes the kill past the absolute duration.
-/
theorem claim_c2_counterexample :
    ¬ (∀ (tms : Nat) (rs : List Nat), killTime tms rs 0 ≤ tms) := by
  intro h
  exact absurd (h 100000 [60000]) (by decide)

/--
Claim C2 (amended): the single kill timer has duration
`max(configTimeout, IDLE_TIMEOUT + 30s)` (so the floor clamp of the claim does
hold); it is armed at spawn and re-armed on every parsed streamed event, and it
fires only when that duration elapses with no re-arm — i.e. at the last
effective re-arm time plus the duration.  A worker that keeps streaming events
within the duration is therefore never killed at the absolute configured
duration.
-/
theorem claim_c2_amended :
    (∀ ct it : Nat, timeoutMsOf ct it = max ct (it + 30000) ∧
        it + 30000 ≤ timeoutMsOf ct it ∧ ct ≤ timeoutMsOf ct it) ∧
    (∀ (tms armed : Nat) (rs : List Nat), chainOK tms armed rs = true →
        killTime tms rs armed = rs.getLastD armed + tms) := by
  constructor
  · intro ct it
    refine ⟨rfl, ?_, ?_⟩ <;> simp [timeoutMsOf]
  · intro tms armed rs
    induction rs generalizing armed with
    | nil => intro _; simp [killTime]
    | cons r rest ih =>
      intro h
      simp only [chainOK, Bool.and_eq_true, decide_eq_true_eq] at h
      simp only [killTime, if_pos h.1, ih r h.2]
      cases rest <;> simp [List.getLastD]

/-- Claim C2 witness: with duration 100000 and re-arms at 50000, 120000 and
190000 (each within the running window) the process is killed only at 290000,
well past the absolute duration. -/
theorem claim_c2_witness :
    killTime 100000 [50000, 120000, 190000] 0 = 290000 ∧
    timeoutMsOf 100000 60000 = 100000 ∧ 100000 < 290000 := by
  have h := claim_c2_amended.2 100000 0 [50000, 120000, 190000] (by decide)
  refine ⟨?_, ?_, by omega⟩
  · rw [h]; decide
  · exact (claim_c2_amended.1 100000 60000).1.trans (by decide)

/-! ## Claim C3 -/

/--
Claim C3 (as stated, refuted): in legacy/batch mode the single result event is
derived from the last complete marker pair of the accumulated stdout.  The code
uses `stdout.indexOf` for both markers, i.e. the FIRST pair: on a stream with
two complete pairs the selected payload is the first one.
-/
theorem claim_c3_counterexample :
    ¬ (∀ s : Str, frames s ≠ [] → legacyJsonLine s = (frames s).getLastD []) := by
  intro h
  exact absurd (h exPair (by decide)) (by decide)

/--
Claim C3 (amended): when the globally-first end marker occurs strictly after
the first start marker, the legacy payload is the FIRST complete frame of the
stream (not the last); in every other case — no start marker, no end marker,
or the first end marker preceding the first start marker (even if a complete
pair exists later) — the last line of the trimmed output is used.
-/
theorem claim_c3_amended :
    (∀ (s : Str) (i j : Nat), indexOf SM s = some i → indexOf EM s = some j →
        i < j → legacyJsonLine s = (frames s).headD []) ∧
    (∀ s : Str,
        (indexOf SM s = none ∨ indexOf EM s = none ∨
         (∃ i j, indexOf SM s = some i ∧ indexOf EM s = some j ∧ j ≤ i)) →
        legacyJsonLine s = lastLine s) := by
  constructor
  · intro s i j hS hE hij
    have hstart := indexOf_starts EM s j hE
    have hEM' : indexOf EM (s.drop i) = some (j - i) := by
      apply indexOf_intro
      · rw [List.drop_drop]
        have hj : i + (j - i) = j := by omega
        rw [hj]
        exact hstart
      · intro k hk
        rw [List.drop_drop]
        exact indexOf_least EM s j hE (i + k) (by omega)
    have hnf : nextFrame s
        = some (jsTrim ((s.drop (i + SM.length)).take (i + (j - i) - (i + SM.length))),
                s.drop (i + (j - i) + EM.length)) := by
      simp only [nextFrame, hS, hEM']
    have hij' : i + (j - i) = j := by omega
    rw [hij'] at hnf
    have hfr := scanAll_cons s _ _ hnf
    unfold legacyJsonLine
    rw [hS, hE]
    simp only [hij, if_pos]
    unfold frames
    rw [hfr]
    simp
  · intro s hcond
    unfold legacyJsonLine
    cases hS : indexOf SM s with
    | none => rfl
    | some i =>
      cases hE : indexOf EM s with
      | none => rfl
      | some j =>
        have hji : ¬ i < j := by
          rcases hcond with h | h | ⟨i', j', hS', hE', hle⟩
          · rw [hS] at h; exact absurd h (by simp)
          · rw [hE] at h; exact absurd h (by simp)
          · rw [hS] at hS'; rw [hE] at hE'
            cases hS'; cases hE'
            omega
        simp [hji]

/-- Claim C3 witness: on the two-pair stream `exPair` the legacy payload is the
first frame. -/
theorem claim_c3_witness :
    legacyJsonLine exPair = (frames exPair).headD [] ∧
    legacyJsonLine exPair = "AAA".toList :=
  ⟨claim_c3_amended.1 exPair 0 30 (by decide) (by decide) (by decide),
   by decide⟩

/-! ## Claim C5 -/

/--
Claim C5 (confirmed): a drain sends queued items in FIFO enqueue order, each
dequeued item at most once (the sent sequence is a prefix of the queue, and
equals the whole queue when every transport send succeeds); a drain call made
while another drain is in progress (`flushing = true`) performs no sends and
leaves the state unchanged; enqueueing via `sendMessage` never blocks on and
never consults the `flushing` flag.
-/
theorem claim_c5_queue_drain :
    (∀ (st : WAState) (ok : QItem → Bool), st.flushing = true →
        flushOutgoingQueueM st ok = (st, [])) ∧
    (∀ (st : WAState) (ok : QItem → Bool),
        ∃ r, (flushOutgoingQueueM st ok).2 ++ r = st.outgoingQueue) ∧
    (∀ (st : WAState) (ok : QItem → Bool), st.flushing = false →
        (∀ x ∈ st.outgoingQueue, ok x = true) →
        (flushOutgoingQueueM st ok).2 = st.outgoingQueue ∧
        (flushOutgoingQueueM st ok).1.outgoingQueue = []) ∧
    (∀ (hasOwn : Bool) (name : Str) (st : WAState) (jid text : Str)
        (sendOk : Bool), st.connected = false →
        (sendMessageM hasOwn name st jid text sendOk).1.outgoingQueue
          = st.outgoingQueue ++ [⟨jid, prefixedText hasOwn name jid text⟩]) := by
  refine ⟨?_, ?_, ?_, ?_⟩
  · intro st ok h
    simp [flushOutgoingQueueM, h]
  · intro st ok
    unfold flushOutgoingQueueM
    by_cases hg : st.flushing || st.outgoingQueue.isEmpty
    · simp only [hg, if_true]
      exact ⟨st.outgoingQueue, rfl⟩
    · simp only [hg, Bool.false_eq_true, if_false]
      exact drainLoop_sent_split ok st.outgoingQueue
  · intro st ok hfl hok
    unfold flushOutgoingQueueM
    by_cases he : st.outgoingQueue.isEmpty
    · have : st.outgoingQueue = [] := List.isEmpty_iff.mp he
      simp [hfl, he, this]
    · have hg : (st.flushing || st.outgoingQueue.isEmpty) = false := by
        simp [hfl, he]
      simp only [hg, Bool.false_eq_true, if_false]
      simp [drainLoop_all ok st.outgoingQueue hok]
  · intro hasOwn name st jid text sendOk h
    simp [sendMessageM, h]

/-- Claim C5 witness: concrete drains on a two-item queue. -/
theorem claim_c5_witness :
    flushOutgoingQueueM { stAB with flushing := true } (fun _ => true)
      = ({ stAB with flushing := true }, []) ∧
    (flushOutgoingQueueM stAB (fun _ => true)).2 = stAB.outgoingQueue ∧
    (flushOutgoingQueueM stAB (fun _ => true)).1.outgoingQueue = [] ∧
    (sendMessageM false "N".toList { stAB with connected := false }
        "d@g.us".toList "m".toList true).1.outgoingQueue
      = stAB.outgoingQueue
        ++ [⟨"d@g.us".toList, prefixedText false "N".toList "d@g.us".toList "m".toList⟩] := by
  refine ⟨?_, ?_, ?_, ?_⟩
  · exact claim_c5_queue_drain.1 { stAB with flushing := true } (fun _ => true) rfl
  · exact (claim_c5_queue_drain.2.2.1 stAB (fun _ => true) rfl (by decide)).1
  · exact (claim_c5_queue_drain.2.2.1 stAB (fun _ => true) rfl (by decide)).2
  · exact claim_c5_queue_drain.2.2.2 false "N".toList
      { stAB with connected := false } "d@g.us".toList "m".toList true rfl

/-! ## Claim C6 -/

/--
Claim C6 (as stated, refuted): an item whose delivery fails because the
transport is unreachable returns to being undelivered so that a later drain
retries it.  In `flushOutgoingQueue` the failing item has already been
`shift`ed off the queue and the rejection aborts the loop, so that item is
lost — it is neither sent nor back in the queue.
-/
theorem claim_c6_counterexample :
    ¬ (∀ (st : WAState) (ok : QItem → Bool) (i : QItem), st.flushing = false →
          i ∈ st.outgoingQueue → ok i = false →
          i ∈ (flushOutgoingQueueM st ok).1.outgoingQueue) := by
  intro h
  have := h { connected := true, outgoingQueue := [qA], flushing := false }
    (fun _ => false) qA rfl (by decide) rfl
  exact absurd this (by decide)

/--
Claim C6 (amended): a transport-level failure of an immediate `sendMessage`
enqueues the item (it is not lost and the failure is not surfaced — the
function returns normally); during a drain, the items before the first failing
item are sent in FIFO order, the failing item itself is dropped, and the items
after it remain queued for a later drain.
-/
theorem claim_c6_amended :
    (∀ (hasOwn : Bool) (name : Str) (st : WAState) (jid text : Str),
        st.connected = true →
        sendMessageM hasOwn name st jid text false
          = ({ st with outgoingQueue := st.outgoingQueue
                ++ [⟨jid, prefixedText hasOwn name jid text⟩] }, [])) ∧
    (∀ (st : WAState) (ok : QItem → Bool) (pre post : List QItem) (i : QItem),
        st.flushing = false → st.outgoingQueue = pre ++ i :: post →
        (∀ x ∈ pre, ok x = true) → ok i = false →
        flushOutgoingQueueM st ok
          = ({ st with outgoingQueue := post, flushing := false }, pre)) := by
  constructor
  · intro hasOwn name st jid text h
    simp [sendMessageM, h]
  · intro st ok pre post i hfl hq hpre hi
    have hne : (pre ++ i :: post).isEmpty = false := by
      cases pre <;> simp
    unfold flushOutgoingQueueM
    rw [hq, hfl, hne]
    simp [drainLoop_split ok pre post i hpre hi]

/-- Claim C6 witness: a connected send failure enqueues; a drain failing on the
second item sends the first, drops the second, keeps none after. -/
theorem claim_c6_witness :
    sendMessageM true "N".toList
        { connected := true, outgoingQueue := [], flushing := false }
        "d@g.us".toList "m".toList false
      = ({ connected := true,
           outgoingQueue := [⟨"d@g.us".toList,
             prefixedText true "N".toList "d@g.us".toList "m".toList⟩],
           flushing := false }, []) ∧
    flushOutgoingQueueM stAB (fun q => decide (q = qA))
      = ({ stAB with outgoingQueue := [], flushing := false }, [qA]) := by
  constructor
  · exact claim_c6_amended.1 true "N".toList
      { connected := true, outgoingQueue := [], flushing := false }
      "d@g.us".toList "m".toList rfl
  · exact claim_c6_amended.2 stAB (fun q => decide (q = qA)) [qA] [] qB rfl rfl
      (by decide) (by decide)

/-! ## Claim C7 -/

/--
Claim C7 (as stated, refuted): resolving the same opaque id twice calls the
authoritative resolver at most once.  Only successful resolutions are cached:
after a failed lookup nothing is stored, so the second resolution calls the
resolver again (two calls in total).
-/
theorem claim_c7_counterexample :
    ¬ (∀ (resolver : Str → Option Str) (cache : List (Str × Str)) (jid : Str),
          translateTwice resolver cache jid ≤ 1) := by
  intro h
  exact absurd (h (fun _ => none) [] "7@lid".toList) (by decide)

/--
Claim C7 (amended): identity resolution checks the local mapping first; a
non-lid id never calls the resolver; a failed lookup returns the opaque id
unchanged without updating the cache (and without throwing — the function is
total), so the next resolution calls the resolver again; a successful lookup
is cached, so two successive resolutions of an uncached lid id whose first
resolution succeeds call the resolver exactly once.
-/
theorem claim_c7_amended :
    (∀ (resolver : Str → Option Str) (cache : List (Str × Str)) (jid : Str),
        strEnds "@lid".toList jid = false →
        translateJidM resolver cache jid = (jid, cache, 0)) ∧
    (∀ (resolver : Str → Option Str) (cache : List (Str × Str)) (jid : Str),
        strEnds "@lid".toList jid = true →
        cacheLookup cache (lidUserOf jid) = none →
        resolver jid = none →
        translateJidM resolver cache jid = (jid, cache, 1)) ∧
    (∀ (resolver : Str → Option Str) (cache : List (Str × Str)) (jid pn : Str),
        strEnds "@lid".toList jid = true →
        cacheLookup cache (lidUserOf jid) = none →
        resolver jid = some pn → pn.isEmpty = false →
        translateTwice resolver cache jid = 1) := by
  refine ⟨?_, ?_, ?_⟩
  · intro resolver cache jid h
    unfold translateJidM
    rw [h]
    simp
  · intro resolver cache jid h hmiss hres
    unfold translateJidM
    rw [h]
    simp [hmiss, hres]
  · intro resolver cache jid pn h hmiss hres hpn
    have h1 : translateJidM resolver cache jid
        = (phoneJidOf pn, cacheInsert (lidUserOf jid) (phoneJidOf pn) cache, 1) := by
      unfold translateJidM
      rw [h]
      simp [hmiss, hres, hpn]
    have h2 : translateJidM resolver
        (cacheInsert (lidUserOf jid) (phoneJidOf pn) cache) jid
        = (phoneJidOf pn, cacheInsert (lidUserOf jid) (phoneJidOf pn) cache, 0) := by
      unfold translateJidM
      rw [h]
      simp [cacheLookup_insert, phoneJidOf_not_empty]
    unfold translateTwice
    rw [h1]
    simp only [h2]

/-- Claim C7 witness: a fresh lid id with a succeeding resolver is resolved
twice with exactly one resolver call; a non-lid id calls the resolver not at
all. -/
theorem claim_c7_witness :
    translateTwice resolver0 [] "7@lid".toList = 1 ∧
    translateJidM resolver0 [] "x@g.us".toList = ("x@g.us".toList, [], 0) := by
  constructor
  · exact claim_c7_amended.2.2 resolver0 [] "7@lid".toList "12345@x".toList
      (by decide) rfl rfl (by decide)
  · exact claim_c7_amended.1 resolver0 [] "x@g.us".toList (by decide)

/-! ## Claim C1 -/

theorem hadStreaming_mono_append (jparse : Str → Option ContainerOutput)
    (cfg : AgentCfg) (pre suf : List Ev)
    (h : (runEvents jparse cfg pre).hadStreamingOutput = true) :
    (runEvents jparse cfg (pre ++ suf)).hadStreamingOutput = true := by
  rw [run_shape] at h ⊢
  simp only [shapeState, Bool.and_eq_true] at h ⊢
  obtain ⟨h1, h2⟩ := h
  refine ⟨h1, ?_⟩
  rw [outChunks_append, List.flatten_append, frames_append, List.filterMap_append,
    isEmpty_append_not]
  simp [h2]

theorem timedOut_of_mem (jparse : Str → Option ContainerOutput) (cfg : AgentCfg)
    (evs : List Ev) (h : Ev.timer ∈ evs) :
    (runEvents jparse cfg evs).timedOut = true := by
  rw [run_shape]
  simp [shapeState, h]

/--
Claim C1 (confirmed): for an invocation whose kill timer fired before close,
the terminal result is status success with result null whenever at least one
framed output event was parsed and streamed before the timer fired, and the
timeout error whenever no event was ever streamed.
-/
theorem claim_c1_timeout_outcome (jparse : Str → Option ContainerOutput)
    (cfg : AgentCfg) (evs : List Ev) (code : Option Int) :
    (∀ pre suf, evs = pre ++ Ev.timer :: suf →
        (runEvents jparse cfg pre).hadStreamingOutput = true →
        (runAgent jparse cfg evs code).out.status = OStatus.success ∧
        (runAgent jparse cfg evs code).out.result = none) ∧
    (Ev.timer ∈ evs →
        (runEvents jparse cfg evs).hadStreamingOutput = false →
        (runAgent jparse cfg evs code).out = timeoutErrorOut cfg.configTimeout) := by
  constructor
  · rintro pre suf rfl h
    have hto : (runEvents jparse cfg (pre ++ Ev.timer :: suf)).timedOut = true :=
      timedOut_of_mem jparse cfg _ (by simp)
    have hhs := hadStreaming_mono_append jparse cfg pre (Ev.timer :: suf) h
    unfold runAgent finish
    simp [hto, hhs, mkSuccessOut]
  · intro hmem hns
    have hto := timedOut_of_mem jparse cfg evs hmem
    unfold runAgent finish
    simp [hto, hns]

/-- Claim C1 witness: a streamed frame followed by the timer yields a soft
success; a bare timer yields the timeout error. -/
theorem claim_c1_witness :
    ((runAgent jparse0 cfgS [Ev.stdoutData frameChunk1, Ev.timer] (some 0)).out.status
        = OStatus.success ∧
     (runAgent jparse0 cfgS [Ev.stdoutData frameChunk1, Ev.timer] (some 0)).out.result
        = none) ∧
    (runAgent jparse0 cfgB [Ev.timer] (some 0)).out
        = timeoutErrorOut cfgB.configTimeout := by
  constructor
  · exact (claim_c1_timeout_outcome jparse0 cfgS
      [Ev.stdoutData frameChunk1, Ev.timer] (some 0)).1
      [Ev.stdoutData frameChunk1] [] rfl (by decide)
  · exact (claim_c1_timeout_outcome jparse0 cfgB [Ev.timer] (some 0)).2
      (by decide) (by decide)

/-! ## Claim C4 -/

/--
Claim C4 (as stated, refuted): in streaming mode all deliveries complete
before the terminal result resolves.  On a non-zero exit after a streamed
event the code resolves the error immediately instead of chaining it behind
`outputChain`, so an in-flight delivery may still be running at resolution.
-/
theorem claim_c4_counterexample :
    ¬ (∀ (jparse : Str → Option ContainerOutput) (cfg : AgentCfg) (evs : List Ev)
          (code : Option Int), cfg.hasCallback = true →
        (runEvents jparse cfg evs).delivered ≠ [] →
        (runAgent jparse cfg evs code).awaitsChain = true) := by
  intro h
  have := h jparse0 cfgS [Ev.stdoutData frameChunk1] (some 1) rfl (by decide)
  exact absurd this (by decide)

/--
Claim C4 (amended): in streaming mode the delivered events are exactly the
successfully parsed frames of the full stdout stream, in frame order, each
exactly once (the delivery chain preserves order by construction); the
terminal resolution is chained behind the delivery queue exactly when the
terminal result is a success (exit 0, or timeout after output) — error
terminals resolve without awaiting in-flight deliveries.
-/
theorem claim_c4_amended (jparse : Str → Option ContainerOutput) (cfg : AgentCfg)
    (evs : List Ev) (code : Option Int) (hcb : cfg.hasCallback = true) :
    (runEvents jparse cfg evs).delivered
        = (frames ((outChunks evs).flatten)).filterMap jparse ∧
    ((runAgent jparse cfg evs code).out.status = OStatus.success ↔
        (runAgent jparse cfg evs code).awaitsChain = true) := by
  constructor
  · rw [run_shape]
    simp [shapeState, hcb]
  · unfold runAgent finish
    by_cases hto : (runEvents jparse cfg evs).timedOut = true
    · by_cases hhs : (runEvents jparse cfg evs).hadStreamingOutput = true
      · simp [hto, hhs, mkSuccessOut]
      · simp [hto, hhs, timeoutErrorOut]
    · by_cases hcode : code = some 0
      · simp [hto, hcode, hcb, mkSuccessOut]
      · simp [hto, hcode, exitErrorOut]

/-- Claim C4 witness: one streamed frame with exit 0. -/
theorem claim_c4_witness :
    (runEvents jparse0 cfgS [Ev.stdoutData frameChunk1]).delivered
        = (frames ((outChunks [Ev.stdoutData frameChunk1]).flatten)).filterMap jparse0 ∧
    ((runAgent jparse0 cfgS [Ev.stdoutData frameChunk1] (some 0)).out.status
        = OStatus.success ↔
     (runAgent jparse0 cfgS [Ev.stdoutData frameChunk1] (some 0)).awaitsChain = true) :=
  claim_c4_amended jparse0 cfgS [Ev.stdoutData frameChunk1] (some 0) rfl

/-! ## Claim C8 -/

/--
Claim C8 (as stated, refuted): the invocation's result carries a truncation
flag for a stream that exceeded the byte ceiling.  `ContainerOutput` has no
truncation field: a run whose stdout exceeds the ceiling resolves to a result
identical to that of a run that did not exceed it — the flags are only written
to the per-run log file.
-/
theorem claim_c8_counterexample :
    (runEvents jparseK cfgT1 [Ev.stdoutData "ABCDEFG".toList]).stdoutTruncated
        = true ∧
    (runEvents jparseK cfgT2 [Ev.stdoutData "ABCDEFG".toList]).stdoutTruncated
        = false ∧
    runAgent jparseK cfgT1 [Ev.stdoutData "ABCDEFG".toList] (some 0)
      = runAgent jparseK cfgT2 [Ev.stdoutData "ABCDEFG".toList] (some 0) :=
  ⟨by decide, by decide, by decide⟩

/--
Claim C8 (amended): the truncation flag for a stream is set exactly when the
stream's total output exceeds the ceiling, and it is recorded in the per-run
log record (for a non-timed-out close), not in the returned result; the
streaming event parser receives full chunks regardless of the ceiling, so the
delivered events are those of the entire stream — in particular every complete
marker pair of the captured prefix is recovered.
-/
theorem claim_c8_amended (jparse : Str → Option ContainerOutput) (cfg : AgentCfg)
    (verbose : Bool) (input0 : CInput) (evs : List Ev) (code : Option Int) :
    (runEvents jparse cfg evs).stdoutTruncated
        = decide (cfg.maxOutput < ((outChunks evs).flatten).length) ∧
    ((runEvents jparse cfg evs).timedOut = false →
        ∃ di ds, logRecordOf verbose input0 (runEvents jparse cfg evs) code
          = LogRecord.runLog
              (decide (cfg.maxOutput < ((outChunks evs).flatten).length))
              (decide (cfg.maxOutput < ((errChunks evs).flatten).length))
              di ds code) ∧
    (cfg.hasCallback = true →
        (runEvents jparse cfg evs).delivered
          = (frames ((outChunks evs).flatten)).filterMap jparse) := by
  have h1 : (runEvents jparse cfg evs).stdoutTruncated
      = decide (cfg.maxOutput < ((outChunks evs).flatten).length) := by
    rw [run_shape]
    simp [shapeState]
  have h2 : (runEvents jparse cfg evs).stderrTruncated
      = decide (cfg.maxOutput < ((errChunks evs).flatten).length) := by
    rw [run_shape]
    simp [shapeState]
  refine ⟨h1, ?_, ?_⟩
  · intro hto
    refine ⟨(if verbose || code ≠ some 0 then some input0 else none),
            (if verbose || code ≠ some 0 then
              some ((runEvents jparse cfg evs).stderr,
                    (runEvents jparse cfg evs).stdout) else none), ?_⟩
    unfold logRecordOf
    simp [hto, h1, h2]
  · intro hcb
    rw [run_shape]
    simp [shapeState, hcb]

/-- Claim C8 witness: a truncated batch run still writes the truncation flags
to the log record; a streaming run past the ceiling still delivers its frames. -/
theorem claim_c8_witness :
    (∃ di ds, logRecordOf false inputFix
        (runEvents jparseK cfgT1 [Ev.stdoutData "ABCDEFG".toList]) (some 0)
      = LogRecord.runLog
          (decide (cfgT1.maxOutput
            < ((outChunks [Ev.stdoutData "ABCDEFG".toList]).flatten).length))
          (decide (cfgT1.maxOutput
            < ((errChunks [Ev.stdoutData "ABCDEFG".toList]).flatten).length))
          di ds (some 0)) ∧
    (runEvents jparse0 { cfgS with maxOutput := 2 } [Ev.stdoutData frameChunk1]).delivered
      = (frames ((outChunks [Ev.stdoutData frameChunk1]).flatten)).filterMap jparse0 := by
  constructor
  · exact (claim_c8_amended jparseK cfgT1 false inputFix
      [Ev.stdoutData "ABCDEFG".toList] (some 0)).2.1 (by decide)
  · exact (claim_c8_amended jparse0 { cfgS with maxOutput := 2 } false inputFix
      [Ev.stdoutData frameChunk1] (some 0)).2.2 rfl

/-! ## Claim C9 -/

/--
Claim C9 (confirmed): the secrets are attached to the in-memory input, written
to the worker's stdin as the first effect, and scrubbed before any later disk
write — every run-log record (the only disk write serializing the input)
carries an input whose secrets field is empty.
-/
theorem claim_c9_secrets (jparse : Str → Option ContainerOutput) (cfg : AgentCfg)
    (verbose : Bool) (input0 : CInput) (secrets : List (Str × Str))
    (evs : List Ev) (code : Option Int) :
    (runAgentEffects jparse cfg verbose input0 secrets evs code).1
      = [SpawnEffect.stdinWrite { input0 with secrets := some secrets },
         SpawnEffect.stdinEnd,
         SpawnEffect.logWrite (logRecordOf verbose { input0 with secrets := none }
            (runEvents jparse cfg evs) code)] ∧
    (∀ rec, SpawnEffect.logWrite rec
          ∈ (runAgentEffects jparse cfg verbose input0 secrets evs code).1 →
        logRecSecrets rec = none) := by
  constructor
  · rfl
  · intro rec hmem
    simp only [runAgentEffects, List.mem_cons, List.mem_singleton,
      List.not_mem_nil, or_false] at hmem
    rcases hmem with h | h | h
    · exact absurd h (by simp)
    · exact absurd h (by simp)
    · have hr : rec = logRecordOf verbose
          { { input0 with secrets := some secrets } with secrets := none }
          (runEvents jparse cfg evs) code := by
        injection h
      subst hr
      unfold logRecordOf
      split
      · rfl
      · simp only [logRecSecrets]
        split
        · simp
        · rfl

/-- Claim C9 witness: concrete invocation effects. -/
theorem claim_c9_witness :
    (runAgentEffects jparse0 cfgS true inputFix secretsFix [] (some 0)).1
      = [SpawnEffect.stdinWrite { inputFix with secrets := some secretsFix },
         SpawnEffect.stdinEnd,
         SpawnEffect.logWrite (logRecordOf true { inputFix with secrets := none }
            (runEvents jparse0 cfgS []) (some 0))] ∧
    logRecSecrets (logRecordOf true { inputFix with secrets := none }
        (runEvents jparse0 cfgS []) (some 0)) = none := by
  constructor
  · exact (claim_c9_secrets jparse0 cfgS true inputFix secretsFix [] (some 0)).1
  · exact (claim_c9_secrets jparse0 cfgS true inputFix secretsFix [] (some 0)).2 _
      (by simp [runAgentEffects])

/-! ## Claim C10 -/

/--
Claim C10 (confirmed): on both channels the `onMessage` callback fires only
when the message's (translated) chat identifier is registered at delivery
time; a message from an unregistered chat produces at most chat-metadata
callbacks.
-/
theorem claim_c10_gating :
    (∀ (hasOwn : Bool) (name : Str) (registered : Str → Bool)
        (resolver : Str → Option Str) (transcribe : Except Unit (Option Str))
        (cache : List (Str × Str)) (msg : WAMsg) (jid : Str) (m : InboundMsg),
        Cb.message jid m ∈ (processWAMessage hasOwn name registered resolver
            transcribe cache msg).2 →
        registered jid = true) ∧
    (∀ (name : Str) (triggerTest : Str → Bool) (registered : Str → Bool)
        (upd : TgUpdate) (jid : Str) (m : InboundMsg),
        Cb.message jid m ∈ handleTgUpdate name triggerTest registered upd →
        registered jid = true) := by
  constructor
  · intro hasOwn name registered resolver transcribe cache msg jid m hmem
    simp only [processWAMessage] at hmem
    split at hmem
    · simp at hmem
    · split at hmem
      · simp at hmem
      · split at hmem
        · simp at hmem
        · split at hmem
          · rename_i hreg
            simp only [List.mem_cons, List.mem_singleton, List.not_mem_nil,
              or_false] at hmem
            rcases hmem with h | h
            · exact absurd h (by simp)
            · injection h with hj hm
              rw [hj]
              exact hreg
          · simp at hmem
  · intro name triggerTest registered upd jid m hmem
    cases upd with
    | textMsg chatId fromId isPrivate title body firstName username date msgId
        botMentioned =>
      simp only [handleTgUpdate] at hmem
      split at hmem
      · simp at hmem
      · split at hmem
        · simp at hmem
        · split at hmem
          · rename_i hreg
            simp only [List.mem_cons, List.mem_singleton, List.not_mem_nil,
              or_false] at hmem
            rcases hmem with h | h
            · exact absurd h (by simp)
            · injection h with hj hm
              rw [hj]
              exact hreg
          · simp at hmem
    | mediaMsg chatId fromId placeholder caption firstName username date msgId =>
      simp only [handleTgUpdate] at hmem
      split at hmem
      · simp at hmem
      · split at hmem
        · simp at hmem
        · rename_i hreg
          simp only [List.mem_cons, List.mem_singleton, List.not_mem_nil,
            or_false] at hmem
          rcases hmem with h | h
          · exact absurd h (by simp)
          · injection h with hj hm
            rw [hj]
            simpa using hreg
    | voiceMsg chatId fromId firstName username date msgId transcript =>
      simp only [handleTgUpdate] at hmem
      split at hmem
      · simp at hmem
      · split at hmem
        · simp at hmem
        · rename_i hreg
          simp only [List.mem_cons, List.mem_singleton, List.not_mem_nil,
            or_false] at hmem
          rcases hmem with h | h
          · exact absurd h (by simp)
          · injection h with hj hm
            rw [hj]
            simpa using hreg
    | commandMsg chatId fromId cmd =>
      simp only [handleTgUpdate] at hmem
      split at hmem <;> simp at hmem

/-- Claim C10 witness: a registered WhatsApp chat and a registered Telegram
chat receive their messages; the gating theorem applied at those inputs. -/
theorem claim_c10_witness :
    registeredWA "r@g.us".toList = true ∧ registeredTG "tg:5".toList = true := by
  constructor
  · exact claim_c10_gating.1 false "N".toList registeredWA (fun _ => none)
      (Except.ok none) [] waMsg0 "r@g.us".toList inMsgWA (by decide)
  · exact claim_c10_gating.2 "N".toList (fun _ => false) registeredTG tgUpd0
      "tg:5".toList inMsgTG (by decide)

end NanoClaw
